import Mathlib

/-!
Verification development for the code-quality-reporter client.

The definitions below are shallow embeddings of the TypeScript sources:
  * `parseRepositoryUrl`, `getContributors`, `getMergedPullRequests` and the
    axios response interceptor from src/client/src/services/github.service.ts;
  * the contributor filter and display sort of `ContributorsTable`
    (src/unnamed/part_000, src/client/src/components/Contributors/ContributorsList.tsx);
  * `validateEmail`, `handleGenerateReview`, `processContributorResult` and the
    task-status polling effect of the asynchronous MainPage variant
    (src/client/src/components/Layout/Header.tsx, lines 400-890);
  * the polling enablement of `useTaskStatus`
    (src/client/src/hooks/useGitHubQueries.ts, lines 153-165).

JavaScript-specific semantics (truthiness of `||`, the stable `Array.sort`, the
WHATWG `URL` constructor, `String.includes`) are modelled by small explicit
helpers documented where they are defined.
-/

namespace CodeQualityReporter

/-! ### JavaScript semantics helpers -/

/-- JS `a || b` where `a` is an optional string: `undefined` and `""` are falsy. -/
def jsOrS : Option String → String → String
  | none, d => d
  | some s, d => if s = "" then d else s

/-- JS `a || b` where `a` is an optional number: `undefined` and `0` are falsy. -/
def jsOrN : Option Nat → Nat → Nat
  | none, d => d
  | some n, d => if n = 0 then d else n

/-- JS truthiness of an optional string (`undefined` and `""` are falsy). -/
def jsTruthyS : Option String → Bool
  | none => false
  | some s => s != ""

/-- Whitespace characters relevant to JS `String.trim` and the `\s` regex class
(ASCII subset; the inputs of interest contain no exotic Unicode whitespace). -/
def isWsChar (c : Char) : Bool :=
  c == ' ' || c == '\t' || c == '\n' || c == '\r'

/-- ASCII model of JS `toLowerCase`, applied character-wise. -/
def lowerChars (cs : List Char) : List Char := cs.map Char.toLower

/-- Does `s` start with `pre`? Model of the prefix test underlying JS
`String.startsWith` and the scanning step of `String.includes`. -/
def startsWithChars : List Char → List Char → Bool
  | _, [] => true
  | [], _ :: _ => false
  | x :: xs, p :: ps => x == p && startsWithChars xs ps

/-- Model of JS `hay.includes(needle)`: contiguous substring test. -/
def containsChars : List Char → List Char → Bool
  | [], needle => needle.isEmpty
  | x :: xs, needle => startsWithChars (x :: xs) needle || containsChars xs needle

/-- Split a character list at the first occurrence of `c`: the part strictly
before it, and the part from `c` on (`[]` when `c` does not occur). -/
def splitFirst (c : Char) : List Char → List Char × List Char
  | [] => ([], [])
  | x :: xs =>
    if x = c then ([], x :: xs)
    else
      let p := splitFirst c xs
      (x :: p.1, p.2)

/-- Split a character list on every occurrence of `c`;
model of JS `String.split` with a single-character separator
(`"".split` gives `[""]`, separators at the ends give empty segments). -/
def splitChar (c : Char) : List Char → List (List Char)
  | [] => [[]]
  | x :: xs =>
    match splitChar c xs with
    | [] => [[x]]
    | s :: ss => if x = c then [] :: s :: ss else (x :: s) :: ss

/-! ### Repository URL parsing (github.service.ts, lines 264-292) -/

/-- Environment model of the WHATWG `URL` constructor, restricted to what
`parseRepositoryUrl` feeds it: an `http://` or `https://` scheme followed by a
host and an opaque path. The constructor throws (here: `none`) when no such
scheme is present or the host is empty or contains whitespace — which is what
makes `new URL('https://not a url')` throw. Returns `(host, pathname)`. -/
def urlOfString (cs : List Char) : Option (List Char × List Char) :=
  if startsWithChars cs "https://".data then urlHostPath (cs.drop 8)
  else if startsWithChars cs "http://".data then urlHostPath (cs.drop 7)
  else none
where
  urlHostPath (rest : List Char) : Option (List Char × List Char) :=
    let p := splitFirst '/' rest
    if !p.1.isEmpty && p.1.all (fun ch => !isWsChar ch) then some (p.1, p.2) else none

/-- `parseRepositoryUrl` (github.service.ts lines 264-292): prepend `https://`
when the input does not start with `http`, run the URL constructor, split the
pathname on `/`, drop empty segments, and return the first two segments as
`(owner, repo)`; `none` models the `null` returned when the constructor throws
or fewer than two segments remain. -/
def parseRepositoryUrl (repoUrl : String) : Option (String × String) :=
  let cs := repoUrl.data
  let parsed :=
    if !startsWithChars cs "http".data then urlOfString ("https://".data ++ cs)
    else urlOfString cs
  match parsed with
  | none => none
  | some hp =>
    match (splitChar '/' hp.2).filter (fun s => !s.isEmpty) with
    | o :: r :: _ => some (String.mk o, String.mk r)
    | _ => none

/-! ### Data model (src/client/src/types/index.ts) -/

structure Contributor where
  id : Nat
  login : String
  avatar_url : String
  name : String
  email : String
  mergeCount : Nat
  selected : Bool := false
deriving Repr, DecidableEq

structure ReviewDetails where
  codeStyle : Nat
  bugFixes : Nat
  performance : Nat
  security : Nat
deriving Repr, DecidableEq

structure CodeReview where
  id : Nat
  login : String
  avatar : String
  name : String
  email : String
  mergeCount : Nat
  rating : Nat
  status : String
  details : ReviewDetails
deriving Repr, DecidableEq

/-- One per-contributor payload inside a task-status response
(`useGitHubQueries.ts` `TaskStatusResponse.results` values / `result`). -/
structure ContributorResult where
  contributor_login : Option String := none
  contributor_name : Option String := none
  contributor_email : Option String := none
  total_count : Option Nat := none
deriving Repr, DecidableEq

/-- `TaskStatusResponse` (useGitHubQueries.ts lines 107-117); the `results`
record is embedded as an association list with unique keys. -/
structure TaskStatusResponse where
  status : String
  result : Option ContributorResult := none
  error : Option String := none
  results : Option (List (String × ContributorResult)) := none
  completed_contributors : Option (List String) := none
  contributor_login : Option String := none
deriving Repr, DecidableEq

/-- The orchestrator-relevant slice of the asynchronous MainPage component state
(Header.tsx lines 400-415). -/
structure MainState where
  selectedContributors : List Contributor
  email : String
  codeReviews : List CodeReview
  loadingContributors : List String
  taskId : Option String
  isReportGenerating : Bool
  showReportsSection : Bool
  processingContributors : List String
deriving Repr, DecidableEq

/-- The toast notifications the orchestrator emits, abstracted from the JSX
descriptions: `zeroMergeWarning` carries the list of names interpolated
(joined with `", "`) into the warning text. -/
inductive Notification where
  | zeroMergeWarning (names : List String)
  | invalidEmailError
  | reportsGenerating
  | reportsReadySync
  | dispatchError (msg : String)
  | tasksCompleted
  | taskFailed (msg : String)
  | emailFailedWarning
  | noEmailWarning
deriving Repr, DecidableEq

inductive ScrollTarget where
  | contributorsSection
  | resultsSection
deriving Repr, DecidableEq

/-- Repository info available at submit time (`repoInfo` of `useRepositoryInfo`);
`createdAt` stands for `repoData.created_at` serialized to an ISO string. -/
structure RepoInfo where
  owner : String
  repo : String
  createdAt : String
deriving Repr, DecidableEq

/-- The body of the single report-generation request
(`codeReviewMutation.mutateAsync` argument, Header.tsx lines 755-762). -/
structure ReviewTaskRequest where
  owner : String
  repo : String
  contributors : List String
  startDate : String
  endDate : String
  email : Option String
deriving Repr, DecidableEq

/-- Everything `handleGenerateReview` does up to and including the dispatch:
the state after its synchronous mutations, the dispatched request (if any),
the toasts shown, and the scroll effects, in order. -/
structure SubmitOutcome where
  state : MainState
  request : Option ReviewTaskRequest
  toasts : List Notification
  scrolls : List ScrollTarget
deriving Repr, DecidableEq

/-! ### processContributorResult (Header.tsx lines 455-494) -/

/-- The review record `processContributorResult` builds for contributor `c` from
payload `r` (Header.tsx lines 464-479): fixed rating 8 and status `Хорошо`,
the remaining fields from the payload with JS `||` fallbacks
(`result.contributor_name || contributor.name`,
`result.contributor_email || contributor.email || email`,
`result.total_count || contributor.mergeCount`). -/
def mkProcessedReview (email : String) (c : Contributor) (r : ContributorResult) : CodeReview :=
  { id := c.id
    login := c.login
    avatar := c.avatar_url
    name := jsOrS r.contributor_name c.name
    email := jsOrS r.contributor_email (if c.email = "" then email else c.email)
    mergeCount := jsOrN r.total_count c.mergeCount
    rating := 8
    status := "Хорошо"
    details := ⟨8, 8, 8, 8⟩ }

/-- Replace the first review whose login equals `key` by `nr`, or append `nr`
when no such review exists: the `findIndex >= 0 ? copy-and-assign : append`
update inside `setCodeReviews` (Header.tsx lines 482-493), written recursively. -/
def upsertReview (key : String) (nr : CodeReview) : List CodeReview → List CodeReview
  | [] => [nr]
  | rv :: rvs => if rv.login == key then nr :: rvs else rv :: upsertReview key nr rvs

/-- `processContributorResult` (Header.tsx lines 455-494): look the login up in
the selected contributors; when absent, return with no state change; otherwise
upsert the freshly built review keyed by the contributor login. -/
def processContributorResult (selected : List Contributor) (email : String)
    (login : String) (r : ContributorResult) (reviews : List CodeReview) : List CodeReview :=
  match selected.find? (fun c => c.login == login) with
  | none => reviews
  | some c => upsertReview c.login (mkProcessedReview email c r) reviews

/-! ### The task-status polling effect (Header.tsx lines 497-620) -/

/-- `taskStatus.results?.[login]`: lookup in the embedded results record. -/
def lookupResult (results : Option (List (String × ContributorResult)))
    (login : String) : Option ContributorResult :=
  (results.getD []).lookup login

/-- `setLoadingContributors(prev => prev.filter(l => l !== login))`. -/
def removeLoading (login : String) (st : MainState) : MainState :=
  { st with loadingContributors := st.loadingContributors.filter (fun x => x != login) }

/-- `processContributorResult` applied inside the component state. -/
def processInState (login : String) (r : ContributorResult) (st : MainState) : MainState :=
  { st with codeReviews :=
      processContributorResult st.selectedContributors st.email login r st.codeReviews }

/-- First stage of the effect (lines 500-521): for every entry of
`taskStatus.results`, process the payload and drop the login from the loading
list. -/
def stepResultsAll (entries : List (String × ContributorResult)) (st : MainState) : MainState :=
  entries.foldl (fun s p => removeLoading p.1 (processInState p.1 p.2 s)) st

/-- Second stage (lines 523-530): the single-update shape
`taskStatus.contributor_login && taskStatus.result`. -/
def stepSingleResult (ts : TaskStatusResponse) (st : MainState) : MainState :=
  match ts.contributor_login, ts.result with
  | some l, some r => if l != "" then removeLoading l (processInState l r st) else st
  | _, _ => st

/-- One iteration of the `partial` branch (lines 576-590): when the completed
login has an entry in `results`, drop it from the loading list and process the
payload; otherwise do nothing. -/
def partialStep (results : Option (List (String × ContributorResult)))
    (st : MainState) (login : String) : MainState :=
  match lookupResult results login with
  | some r => processInState login r (removeLoading login st)
  | none => st

/-- The `partial` branch body (Header.tsx lines 572-591): iterate `partialStep`
over `completed_contributors`. -/
def applyPartialMerge (cc : List String)
    (results : Option (List (String × ContributorResult))) (st : MainState) : MainState :=
  cc.foldl (partialStep results) st

/-- Result processing of the `completed` branch (lines 545-570): all nested in
`if (taskStatus.result)`; the single-contributor shape first, then the
`completed_contributors` loop (which does not touch the loading list). -/
def stepCompletedResults (ts : TaskStatusResponse) (st : MainState) : MainState :=
  match ts.result with
  | none => st
  | some r =>
    let st1 :=
      match r.contributor_login with
      | some l => if l != "" then processInState l r st else st
      | none => st
    match ts.completed_contributors with
    | some cc =>
      cc.foldl (fun s l =>
        match lookupResult ts.results l with
        | some rr => processInState l rr s
        | none => s) st1
    | none => st1

/-- The whole task-status effect (Header.tsx lines 497-620) as a pure step:
given the polled `TaskStatusResponse` and the current state, the next state and
the toasts emitted. Mirrors the source order: the general `results` sweep, the
single-update shape, then the status dispatch. Note that the
`completed-no-email` branch (lines 611-618) sets `isReportGenerating` to false
but — unlike the three sibling terminal branches — does not clear
`loadingContributors`. -/
def applyTaskStatus (ts : TaskStatusResponse) (st : MainState) :
    MainState × List Notification :=
  let st1 :=
    match ts.results with
    | some entries => stepResultsAll entries st
    | none => st
  let st2 := stepSingleResult ts st1
  if ts.status = "completed" then
    (stepCompletedResults ts
       { st2 with isReportGenerating := false, loadingContributors := [] },
     [Notification.tasksCompleted])
  else if ts.status = "partial" then
    (match ts.completed_contributors with
     | some cc => applyPartialMerge cc ts.results st2
     | none => st2,
     [])
  else if ts.status = "failed" then
    ({ st2 with isReportGenerating := false, loadingContributors := [] },
     [Notification.taskFailed (jsOrS ts.error "Неизвестная ошибка")])
  else if ts.status = "completed-email-failed" then
    ({ st2 with isReportGenerating := false, loadingContributors := [] },
     [Notification.emailFailedWarning])
  else if ts.status = "completed-no-email" then
    ({ st2 with isReportGenerating := false },
     [Notification.noEmailWarning])
  else (st2, [])

/-- `useTaskStatus` (useGitHubQueries.ts lines 153-165): the query runs iff
`enabled && !!taskId`; MainPage passes `taskId || ''` for the id and
`isReportGenerating` for `enabled`, so a status request can only be issued while
this returns `true`. -/
def pollingEnabled (taskId : Option String) (isReportGenerating : Bool) : Bool :=
  isReportGenerating && (taskId.getD "" != "")

/-- The `refetchInterval` option of `useTaskStatus`: 3000 ms while polling is
enabled, otherwise `false` (no further requests). -/
def refetchIntervalMs (taskId : Option String) (isReportGenerating : Bool) : Option Nat :=
  if pollingEnabled taskId isReportGenerating then some 3000 else none

/-! ### validateEmail and handleGenerateReview (Header.tsx lines 659-803, 885-888) -/

/-- `validateEmail` (Header.tsx lines 885-888) tests the regex
`^[^\s@]+@[^\s@]+\.[^\s@]+$`: exactly one `@`, no whitespace anywhere, a
nonempty local part, and a domain containing some dot with nonempty text before
its first dot and after its last dot (the two domain pieces `[^\s@]+` may
themselves contain dots). Executable rendering of that regex. -/
def validateEmail (email : String) : Bool :=
  match splitChar '@' email.data with
  | [localPart, domainPart] =>
    !localPart.isEmpty && localPart.all (fun ch => !isWsChar ch) &&
    !domainPart.isEmpty && domainPart.all (fun ch => !isWsChar ch) &&
    (let segs := splitChar '.' domainPart
     decide (2 ≤ segs.length) && !(segs.headD []).isEmpty && !(segs.getLastD []).isEmpty)
  | _ => false

/-- The zero-valued placeholder review built for each submitted login
(Header.tsx lines 726-744): rating 0, neutral status `Хорошо`, fields copied
from the selected contributor with `|| ''`-style fallbacks (the lookup cannot
actually fail since the logins come from the selected list). -/
def placeholderReview (selected : List Contributor) (email : String)
    (login : String) : CodeReview :=
  match selected.find? (fun c => c.login == login) with
  | some c =>
    { id := c.id, login := c.login, avatar := c.avatar_url, name := c.name
      email := if c.email = "" then email else c.email
      mergeCount := c.mergeCount, rating := 0, status := "Хорошо"
      details := ⟨0, 0, 0, 0⟩ }
  | none =>
    { id := 0, login := "", avatar := "", name := "", email := email
      mergeCount := 0, rating := 0, status := "Хорошо", details := ⟨0, 0, 0, 0⟩ }

/-- `handleGenerateReview` (Header.tsx lines 659-803), up to and including the
dispatch: the early returns (missing repo info, empty selection, invalid
non-empty email), the zero-merge warning and its all-zero abort, the synchronous
state mutations (reports section shown, placeholder reviews, loading logins) and
the single `mutateAsync` request. `dateFrom`/`dateTo` stand for the
`dateRange` bounds already serialized to `YYYY-MM-DD`, `nowIso` for
`new Date().toISOString()`; the response handling is asynchronous and not part
of this step. -/
def handleGenerateReview (repoInfo : Option RepoInfo)
    (dateFrom dateTo : Option String) (nowIso : String) (st : MainState) : SubmitOutcome :=
  match repoInfo with
  | none => { state := st, request := none, toasts := [], scrolls := [] }
  | some ri =>
    if st.selectedContributors.isEmpty then
      { state := st, request := none, toasts := [], scrolls := [] }
    else if st.email != "" && !validateEmail st.email then
      { state := st, request := none, toasts := [Notification.invalidEmailError], scrolls := [] }
    else
      let startDate := dateFrom.getD ri.createdAt
      let endDate := dateTo.getD nowIso
      let noMerges := st.selectedContributors.filter (fun c => c.mergeCount == 0)
      let warnToasts : List Notification :=
        if noMerges.isEmpty then []
        else [Notification.zeroMergeWarning (noMerges.map (fun c => c.name))]
      let warnScrolls : List ScrollTarget :=
        if noMerges.isEmpty then [] else [ScrollTarget.contributorsSection]
      if !noMerges.isEmpty && st.selectedContributors.all (fun c => c.mergeCount == 0) then
        { state := st, request := none, toasts := warnToasts, scrolls := warnScrolls }
      else
        let contributorLogins :=
          (st.selectedContributors.filter (fun c => 0 < c.mergeCount)).map (fun c => c.login)
        let initialReviews :=
          contributorLogins.map (placeholderReview st.selectedContributors st.email)
        { state := { st with
            showReportsSection := true
            processingContributors := []
            codeReviews := initialReviews
            loadingContributors := contributorLogins }
          request := some { owner := ri.owner, repo := ri.repo
                            contributors := contributorLogins
                            startDate := startDate, endDate := endDate
                            email := if st.email = "" then none else some st.email }
          toasts := warnToasts
          scrolls := warnScrolls ++ [ScrollTarget.resultsSection] }

/-! ### Contributor filter and display sort (src/unnamed/part_000 lines 39-49) -/

/-- The filter predicate of `ContributorsTable`: case-insensitive substring
match of the filter against email or name. -/
def matchesEmailFilter (emailFilter : String) (c : Contributor) : Bool :=
  containsChars (lowerChars c.email.data) (lowerChars emailFilter.data) ||
  containsChars (lowerChars c.name.data) (lowerChars emailFilter.data)

/-- The filter step of `ContributorsTable` (part_000 lines 39-45 and
ContributorsList.tsx lines 36-42): `emailFilter.trim() ? filter : contributors`
— a trimmed-empty (whitespace-only) filter string leaves the list untouched. -/
def filteredContributors (contributors : List Contributor) (emailFilter : String) :
    List Contributor :=
  if emailFilter.data.any (fun ch => !isWsChar ch) then
    contributors.filter (matchesEmailFilter emailFilter)
  else contributors

/-- Stable insertion for the display sort: a later-inserted element is placed
before the first element whose merge count does not exceed its own. -/
def insertByMergeCount (c : Contributor) : List Contributor → List Contributor
  | [] => [c]
  | x :: xs =>
    if x.mergeCount ≤ c.mergeCount then c :: x :: xs else x :: insertByMergeCount c xs

/-- The display sort of `ContributorsTable` (part_000 lines 46-48):
`sort((a, b) => b.mergeCount - a.mergeCount)`. JS `Array.sort` is stable
(ECMA-262), and a stable sort's output is uniquely determined by the comparator,
so this insertion sort is an exact model. -/
def sortedContributors (l : List Contributor) : List Contributor :=
  l.foldr insertByMergeCount []

/-! ### getContributors / getMergedPullRequests (github.service.ts lines 70-147) -/

/-- One element of the `/repos/.../contributors` response, as consumed by
`getContributors` (name and email may be absent or empty). -/
structure RawContributor where
  id : Nat
  login : String
  avatar_url : String
  name : Option String := none
  email : Option String := none
deriving Repr, DecidableEq

/-- One item of the `/search/issues` merged-PR response: only `pr.user.id` is
consumed by the aggregation. -/
structure SearchItem where
  userId : Nat
deriving Repr, DecidableEq

/-- The aggregation loop of `getMergedPullRequests` (lines 138-144):
`mergeCountMap.set(userId, (mergeCountMap.get(userId) || 0) + 1)` over the
search items, with the `Map` embedded as a function to `Option Nat`. -/
def mergeCountMap (items : List SearchItem) : Nat → Option Nat :=
  items.foldl
    (fun m pr => fun k => if k = pr.userId then some ((m pr.userId).getD 0 + 1) else m k)
    (fun _ => none)

/-- Specification-side count: the number of search items authored by `id`. -/
def mergedCountOf (items : List SearchItem) (id : Nat) : Nat :=
  (items.filter (fun pr => pr.userId == id)).length

/-- The search URL built by `getMergedPullRequests` (lines 128-135): the
`+merged:start..end` filter is appended iff both date bounds are truthy. -/
def searchIssuesUrl (owner repo : String) (startDate endDate : Option String) : String :=
  let dateFilter :=
    if jsTruthyS startDate && jsTruthyS endDate then
      "+merged:" ++ startDate.getD "" ++ ".." ++ endDate.getD ""
    else ""
  "https://api.github.com/search/issues?q=repo:" ++ owner ++ "/" ++ repo ++
    "+is:pr+is:merged" ++ dateFilter ++ "&per_page=100"

/-- `getContributors` (github.service.ts lines 70-110): normalize the roster
(email default `Нет данных`, name default login, mergeCount 0), then attach
`mergeCountMap.get(id) || 0` to every record. -/
def getContributors (data : List RawContributor) (items : List SearchItem) :
    List Contributor :=
  let contributors := data.map (fun c =>
    { id := c.id, login := c.login, avatar_url := c.avatar_url
      email := jsOrS c.email "Нет данных", name := jsOrS c.name c.login
      mergeCount := 0, selected := false : Contributor })
  contributors.map (fun c => { c with mergeCount := jsOrN (mergeCountMap items c.id) 0 })

/-! ### The rate-limit response interceptor (github.service.ts lines 26-48) -/

/-- The error object seen by the axios response interceptor: HTTP status, the
two rate-limit headers (`x-ratelimit-reset` already `parseInt`-ed to epoch
seconds), and the mutable message. -/
structure HttpErrorResponse where
  status : Nat
  rateLimitRemaining : Option String
  rateLimitReset : Nat
  message : String
deriving Repr, DecidableEq

/-- JS `Math.ceil(a / b)` for integers with `b > 0`, via floor division
(`Int./` is Euclidean division, which rounds toward negative infinity for a
positive divisor). -/
def jsMathCeilDiv (a b : Int) : Int := (a + b - 1) / b

/-- The response interceptor (github.service.ts lines 26-48): on HTTP 403 with
header `x-ratelimit-remaining: 0`, rewrite the error message to the rate-limit
text carrying `Math.ceil((reset*1000 - now) / 60000)` minutes; in every case the
error is re-rejected unchanged otherwise (`Promise.reject(error)`) — the
interceptor never retries. `nowMs` is `Date.now()` in milliseconds. -/
def interceptResponseError (nowMs : Int) (e : HttpErrorResponse) : HttpErrorResponse :=
  if e.status == 403 && e.rateLimitRemaining == some "0" then
    let minutesUntilReset := jsMathCeilDiv ((e.rateLimitReset : Int) * 1000 - nowMs) 60000
    { e with message :=
        "GitHub API rate limit exceeded. Reset in " ++ toString minutesUntilReset ++
        " minutes. Consider adding a GitHub token for higher limits." }
  else e

/-! ### Derived notions used by the theorems -/

/-- The (first) displayed review keyed by a login, mirroring the
`findIndex`-based lookup of the source. -/
def reviewFor (login : String) (rvs : List CodeReview) : Option CodeReview :=
  rvs.find? (fun rv => rv.login == login)

/-- A state in which the work of the partial-merge step for `login` is already
done: if the snapshot carries a result for `login`, then `login` is out of the
loading list and (when `login` is a selected contributor) its displayed review
is exactly the processed payload. -/
def StableAt (results : Option (List (String × ContributorResult))) (login : String)
    (st : MainState) : Prop :=
  match lookupResult results login with
  | none => True
  | some r =>
    login ∉ st.loadingContributors ∧
    (match st.selectedContributors.find? (fun c => c.login == login) with
     | none => True
     | some c => reviewFor login st.codeReviews = some (mkProcessedReview st.email c r))

/-- Every displayed review belongs to a currently selected contributor. -/
def reviewsMatchSelection (st : MainState) : Prop :=
  ∀ rv ∈ st.codeReviews, rv.login ∈ st.selectedContributors.map (fun c => c.login)

/-- Concrete roster for the claim C7 witness: users 1 and 3. -/
def rosterW : List RawContributor :=
  [{ id := 1, login := "alice", avatar_url := "" },
   { id := 3, login := "carol", avatar_url := "" }]

/-- Concrete merged-PR search items for the claim C7 witness: two PRs by user 1
and one by user 2. -/
def searchItemsW : List SearchItem := [⟨1⟩, ⟨2⟩, ⟨1⟩]

/-! ### Helper lemmas on the character-list primitives -/

theorem startsWithChars_append_self (pre rest : List Char) :
    startsWithChars (pre ++ rest) pre = true := by
  induction pre with
  | nil => cases rest <;> rfl
  | cons p ps ih => simp [startsWithChars, ih]

theorem splitFirst_append {a : List Char} {c : Char} (h : ∀ x ∈ a, x ≠ c) (b : List Char) :
    splitFirst c (a ++ c :: b) = (a, c :: b) := by
  induction a with
  | nil => simp [splitFirst]
  | cons x xs ih =>
    have hx : x ≠ c := h x (List.mem_cons_self x xs)
    have hxs : ∀ y ∈ xs, y ≠ c := fun y hy => h y (List.mem_cons_of_mem x hy)
    simp [splitFirst, hx, ih hxs]

theorem splitChar_ne_nil (c : Char) (l : List Char) : splitChar c l ≠ [] := by
  cases l with
  | nil => simp [splitChar]
  | cons x xs =>
    simp only [splitChar]
    rcases hrec : splitChar c xs with _ | ⟨s, ss⟩
    · simp
    · by_cases hx : x = c <;> simp [hx]

theorem splitChar_cons_sep (c : Char) (xs : List Char) :
    splitChar c (c :: xs) = [] :: splitChar c xs := by
  simp only [splitChar]
  rcases hrec : splitChar c xs with _ | ⟨s, ss⟩
  · exact absurd hrec (splitChar_ne_nil c xs)
  · simp

theorem splitChar_of_forall_ne {a : List Char} {c : Char} (h : ∀ x ∈ a, x ≠ c) :
    splitChar c a = [a] := by
  induction a with
  | nil => rfl
  | cons x xs ih =>
    have hx : x ≠ c := h x (List.mem_cons_self x xs)
    have hxs : ∀ y ∈ xs, y ≠ c := fun y hy => h y (List.mem_cons_of_mem x hy)
    simp only [splitChar, ih hxs]
    simp [hx]

theorem splitChar_append {a : List Char} {c : Char} (h : ∀ x ∈ a, x ≠ c) (b : List Char) :
    splitChar c (a ++ c :: b) = a :: splitChar c b := by
  induction a with
  | nil => simp only [List.nil_append]; exact splitChar_cons_sep c b
  | cons x xs ih =>
    have hx : x ≠ c := h x (List.mem_cons_self x xs)
    have hxs : ∀ y ∈ xs, y ≠ c := fun y hy => h y (List.mem_cons_of_mem x hy)
    simp only [List.cons_append, splitChar, List.append_eq]
    rw [ih hxs]
    simp [hx]

/-! ### Claim C5 — repository URL parsing -/

/-- Claim C5 counterexample: contrary to the claim, the bare two-segment input
`owner/repo` does NOT resolve to that owner and repo — after `https://` is
prepended, `owner` becomes the URL host, a single path segment remains, and
`parseRepositoryUrl` returns `null`. -/
theorem parseRepositoryUrl_bare_counterexample :
    parseRepositoryUrl "owner/repo" = none := by decide

/-- Claim C5 (amended): `parseRepositoryUrl` accepts a full URL with or without
scheme, prepending `https://` when the input does not start with `http`; the
first component of a scheme-less input is consumed as the URL host, and the
first two non-empty path segments after the host become owner and repo. Hence
`github.com/acme/widgets` (with or without scheme) resolves to
`(acme, widgets)`, while `not a url` (invalid host) and the bare two-segment
`owner/repo` (only one path segment after the host) yield `ParseError`
(`none`). -/
theorem parseRepositoryUrl_spec (host o r : List Char)
    (hhostne : host ≠ []) (hhostslash : ∀ x ∈ host, x ≠ '/')
    (hhostws : ∀ x ∈ host, isWsChar x = false)
    (hone : o ≠ []) (hoslash : ∀ x ∈ o, x ≠ '/')
    (hrne : r ≠ []) (hrslash : ∀ x ∈ r, x ≠ '/')
    (hscheme : startsWithChars (host ++ '/' :: (o ++ '/' :: r)) "http".data = false) :
    parseRepositoryUrl (String.mk (host ++ '/' :: (o ++ '/' :: r))) =
      some (String.mk o, String.mk r)
    ∧ parseRepositoryUrl "github.com/acme/widgets" = some ("acme", "widgets")
    ∧ parseRepositoryUrl "https://github.com/acme/widgets" = some ("acme", "widgets")
    ∧ parseRepositoryUrl "not a url" = none
    ∧ parseRepositoryUrl "owner/repo" = none := by
  refine ⟨?_, by decide, by decide, by decide, by decide⟩
  have hcs : (String.mk (host ++ '/' :: (o ++ '/' :: r))).data
      = host ++ '/' :: (o ++ '/' :: r) := rfl
  have hdrop : ("https://".data ++ (host ++ '/' :: (o ++ '/' :: r))).drop 8
      = host ++ '/' :: (o ++ '/' :: r) := by
    rw [show (8 : Nat) = ("https://".data).length from rfl]
    exact List.drop_left _ _
  have hpre : startsWithChars ("https://".data ++ (host ++ '/' :: (o ++ '/' :: r)))
      "https://".data = true := startsWithChars_append_self _ _
  have hsplit : splitFirst '/' (host ++ '/' :: (o ++ '/' :: r))
      = (host, '/' :: (o ++ '/' :: r)) := splitFirst_append hhostslash _
  have hhostempty : host.isEmpty = false := by
    cases host with
    | nil => exact absurd rfl hhostne
    | cons a l => rfl
  have hhostall : host.all (fun ch => !isWsChar ch) = true := by
    rw [List.all_eq_true]
    intro x hx
    rw [hhostws x hx]
    rfl
  have hsegs : splitChar '/' ('/' :: (o ++ '/' :: r)) = [] :: o :: [r] := by
    rw [splitChar_cons_sep, splitChar_append hoslash, splitChar_of_forall_ne hrslash]
  have hoempty : o.isEmpty = false := by
    cases o with
    | nil => exact absurd rfl hone
    | cons a l => rfl
  have hrempty : r.isEmpty = false := by
    cases r with
    | nil => exact absurd rfl hrne
    | cons a l => rfl
  rw [parseRepositoryUrl]
  simp only [hcs, hscheme, Bool.not_false, if_pos]
  rw [urlOfString, if_pos hpre, urlOfString.urlHostPath, hdrop, hsplit]
  simp only [hhostempty, hhostall, Bool.not_false, Bool.and_true, if_pos]
  simp [hsegs, hoempty, hrempty]

/-- Claim C5 witness: the amended theorem applied to the host `github.com` with
path segments `acme` and `widgets`. -/
theorem parseRepositoryUrl_spec_witness :
    parseRepositoryUrl (String.mk ("github.com".data ++ '/' :: ("acme".data ++ '/' :: "widgets".data))) =
      some (String.mk "acme".data, String.mk "widgets".data)
    ∧ parseRepositoryUrl "github.com/acme/widgets" = some ("acme", "widgets")
    ∧ parseRepositoryUrl "https://github.com/acme/widgets" = some ("acme", "widgets")
    ∧ parseRepositoryUrl "not a url" = none
    ∧ parseRepositoryUrl "owner/repo" = none :=
  parseRepositoryUrl_spec "github.com".data "acme".data "widgets".data
    (by decide) (by decide) (by decide) (by decide) (by decide) (by decide) (by decide)
    (by decide)

/-! ### Claim C8 — rate-limit error translation -/

theorem string_eq_of_data {a b : String} (h : a.data = b.data) : a = b := by
  cases a; cases b; exact congrArg String.mk h

/-- Claim C8: on HTTP 403 with `x-ratelimit-remaining: 0` the interceptor
rewrites the error message to the rate-limit text carrying the minutes until
reset; the minutes value is exactly the ceiling of
`(reset seconds * 1000 - now) / 60000` (characterized arithmetically); the
message contains the distinguishing substring `rate limit` (which is what the
UI error handler tests for); any other error is re-rejected unchanged. The
interceptor itself performs no retry: it always returns the rejected error. -/
theorem interceptResponseError_rate_limit (nowMs : Int) (e : HttpErrorResponse)
    (h403 : e.status = 403) (hrem : e.rateLimitRemaining = some "0") :
    (interceptResponseError nowMs e).message =
      "GitHub API rate limit exceeded. Reset in " ++
        toString (jsMathCeilDiv ((e.rateLimitReset : Int) * 1000 - nowMs) 60000) ++
        " minutes. Consider adding a GitHub token for higher limits."
    ∧ (let diff := (e.rateLimitReset : Int) * 1000 - nowMs
       let m := jsMathCeilDiv diff 60000
       60000 * (m - 1) < diff ∧ diff ≤ 60000 * m)
    ∧ (∃ s t : String, (interceptResponseError nowMs e).message = s ++ "rate limit" ++ t)
    ∧ (∀ e2 : HttpErrorResponse, e2.status ≠ 403 ∨ e2.rateLimitRemaining ≠ some "0" →
        interceptResponseError nowMs e2 = e2) := by
  have hcond : (e.status == 403 && e.rateLimitRemaining == some "0") = true := by
    rw [h403, hrem]; rfl
  have hmsg : (interceptResponseError nowMs e).message =
      "GitHub API rate limit exceeded. Reset in " ++
        toString (jsMathCeilDiv ((e.rateLimitReset : Int) * 1000 - nowMs) 60000) ++
        " minutes. Consider adding a GitHub token for higher limits." := by
    rw [interceptResponseError, if_pos hcond]
  refine ⟨hmsg, ?_, ?_, ?_⟩
  · unfold jsMathCeilDiv
    constructor <;> omega
  · refine ⟨"GitHub API ", " exceeded. Reset in " ++
      toString (jsMathCeilDiv ((e.rateLimitReset : Int) * 1000 - nowMs) 60000) ++
      " minutes. Consider adding a GitHub token for higher limits.", ?_⟩
    rw [hmsg]
    rw [show ("GitHub API rate limit exceeded. Reset in " : String) =
      "GitHub API " ++ ("rate limit" ++ " exceeded. Reset in ") from by decide]
    simp only [String.append_assoc]
  · intro e2 h2
    have hcond2 : (e2.status == 403 && e2.rateLimitRemaining == some "0") = false := by
      rcases h2 with h2 | h2
      · have : (e2.status == 403) = false := by
          simp [beq_iff_eq]; exact h2
        simp [this]
      · have : (e2.rateLimitRemaining == some "0") = false := by
          simp [beq_iff_eq]; exact h2
        simp [this]
    rw [interceptResponseError, if_neg]
    rw [hcond2]
    exact Bool.false_ne_true

/-- Claim C8 witness: a 403 with `x-ratelimit-remaining: 0`, reset at epoch
second 100 and now at 40000 ms, giving exactly 1 minute until reset. -/
theorem interceptResponseError_rate_limit_witness :
    (interceptResponseError 40000
       { status := 403, rateLimitRemaining := some "0", rateLimitReset := 100,
         message := "Request failed with status code 403" }).message =
      "GitHub API rate limit exceeded. Reset in " ++
        toString (jsMathCeilDiv (((100 : Nat) : Int) * 1000 - 40000) 60000) ++
        " minutes. Consider adding a GitHub token for higher limits."
    ∧ (let diff := ((100 : Nat) : Int) * 1000 - 40000
       let m := jsMathCeilDiv diff 60000
       60000 * (m - 1) < diff ∧ diff ≤ 60000 * m)
    ∧ (∃ s t : String,
        (interceptResponseError 40000
          { status := 403, rateLimitRemaining := some "0", rateLimitReset := 100,
            message := "Request failed with status code 403" }).message =
        s ++ "rate limit" ++ t)
    ∧ (∀ e2 : HttpErrorResponse, e2.status ≠ 403 ∨ e2.rateLimitRemaining ≠ some "0" →
        interceptResponseError 40000 e2 = e2) :=
  interceptResponseError_rate_limit 40000
    { status := 403, rateLimitRemaining := some "0", rateLimitReset := 100,
      message := "Request failed with status code 403" } rfl rfl

/-! ### Claim C7 — merge-count aggregation and search query -/

theorem jsOrN_zero (o : Option Nat) : jsOrN o 0 = o.getD 0 := by
  cases o with
  | none => rfl
  | some n =>
    by_cases h : n = 0 <;> simp [jsOrN, h]

theorem mergeCountMap_count (items : List SearchItem) (k : Nat) :
    (mergeCountMap items k).getD 0 = mergedCountOf items k := by
  suffices h : ∀ (m0 : Nat → Option Nat),
      ((items.foldl
        (fun m pr => fun j => if j = pr.userId then some ((m pr.userId).getD 0 + 1) else m j)
        m0) k).getD 0 = (m0 k).getD 0 + mergedCountOf items k by
    simpa using h (fun _ => none)
  induction items with
  | nil => intro m0; simp [mergedCountOf]
  | cons pr rest ih =>
    intro m0
    rw [List.foldl_cons, ih]
    by_cases hk : k = pr.userId
    · subst hk
      simp [mergedCountOf, List.filter_cons]
      omega
    · have : (pr.userId == k) = false := by
        simp [beq_iff_eq]; omega
      simp [mergedCountOf, List.filter_cons, this, hk]

/-- Claim C7: every contributor produced by `getContributors` carries a merge
count equal to the number of merged-PR search items authored by its stable id
(0 when the id never occurs), ids being carried over unchanged from the roster;
and the `merged:` date filter appears in the search query iff both bounds of
the date range are present (and non-empty), being omitted otherwise. -/
theorem getContributors_merge_counts (data : List RawContributor) (items : List SearchItem)
    (owner repo : String) (startDate endDate : Option String) :
    (getContributors data items).map (fun c => c.mergeCount) =
      data.map (fun rc => mergedCountOf items rc.id)
    ∧ (getContributors data items).map (fun c => c.id) = data.map (fun rc => rc.id)
    ∧ ((jsTruthyS startDate && jsTruthyS endDate) = false →
        searchIssuesUrl owner repo startDate endDate =
          "https://api.github.com/search/issues?q=repo:" ++ owner ++ "/" ++ repo ++
            "+is:pr+is:merged" ++ "&per_page=100")
    ∧ (∀ sd ed, startDate = some sd → endDate = some ed → sd ≠ "" → ed ≠ "" →
        searchIssuesUrl owner repo startDate endDate =
          "https://api.github.com/search/issues?q=repo:" ++ owner ++ "/" ++ repo ++
            "+is:pr+is:merged" ++ ("+merged:" ++ sd ++ ".." ++ ed) ++ "&per_page=100") := by
  refine ⟨?_, ?_, ?_, ?_⟩
  · simp only [getContributors, List.map_map]
    refine List.map_congr_left ?_
    intro rc _
    simp [Function.comp, jsOrN_zero, mergeCountMap_count]
  · simp [getContributors, List.map_map, Function.comp]
  · intro h
    rw [searchIssuesUrl]
    simp only [h, if_neg Bool.false_ne_true]
    rw [String.append_empty]
  · intro sd ed hs he hsne hene
    subst hs; subst he
    have : (jsTruthyS (some sd) && jsTruthyS (some ed)) = true := by
      simp [jsTruthyS, hsne, hene]
    rw [searchIssuesUrl]
    simp only [this, if_pos]
    rfl

/-- Claim C7 witness: the theorem applied to a concrete roster and search
result, an absent start date (filter omitted), and a full date range (filter
present). -/
theorem getContributors_merge_counts_witness :
    (getContributors rosterW searchItemsW).map (fun c => c.mergeCount) =
      rosterW.map (fun rc => mergedCountOf searchItemsW rc.id)
    ∧ searchIssuesUrl "acme" "widgets" none (some "2024-03-01") =
        "https://api.github.com/search/issues?q=repo:" ++ "acme" ++ "/" ++ "widgets" ++
          "+is:pr+is:merged" ++ "&per_page=100"
    ∧ searchIssuesUrl "acme" "widgets" (some "2024-01-01") (some "2024-03-01") =
        "https://api.github.com/search/issues?q=repo:" ++ "acme" ++ "/" ++ "widgets" ++
          "+is:pr+is:merged" ++ ("+merged:" ++ "2024-01-01" ++ ".." ++ "2024-03-01") ++
          "&per_page=100" :=
  ⟨(getContributors_merge_counts rosterW searchItemsW
      "acme" "widgets" none (some "2024-03-01")).1,
   (getContributors_merge_counts rosterW searchItemsW
      "acme" "widgets" none (some "2024-03-01")).2.2.1 (by decide),
   (getContributors_merge_counts rosterW searchItemsW
      "acme" "widgets" (some "2024-01-01") (some "2024-03-01")).2.2.2
     "2024-01-01" "2024-03-01" rfl rfl (by decide) (by decide)⟩

/-! ### Claim C2 — terminal statuses of the poll handler -/

/-- Claim C2 (code bug): evaluating the poll effect on a state awaiting `alice`
shows that the three terminal statuses `completed`, `failed` and
`completed-email-failed` stop polling (`isReportGenerating` false, so
`useTaskStatus` is disabled and `refetchInterval` is `false`) and leave the
awaiting list empty, but the fourth terminal status `completed-no-email` only
stops polling and leaves `loadingContributors` untouched (still `["alice"]`):
its branch (Header.tsx lines 611-618) is missing the `setLoadingContributors([])`
call that all three sibling terminal branches perform. -/
theorem applyTaskStatus_terminal_statuses :
    (let alice : Contributor :=
      { id := 1, login := "alice", avatar_url := "", name := "Alice",
        email := "alice@acme.dev", mergeCount := 3 }
     let st0 : MainState :=
      { selectedContributors := [alice], email := "", codeReviews := [],
        loadingContributors := ["alice"], taskId := some "t1",
        isReportGenerating := true, showReportsSection := true,
        processingContributors := [] }
     ((applyTaskStatus { status := "completed" } st0).1.loadingContributors = []
       ∧ (applyTaskStatus { status := "completed" } st0).1.isReportGenerating = false
       ∧ pollingEnabled (applyTaskStatus { status := "completed" } st0).1.taskId
           (applyTaskStatus { status := "completed" } st0).1.isReportGenerating = false)
     ∧ ((applyTaskStatus { status := "failed" } st0).1.loadingContributors = []
       ∧ (applyTaskStatus { status := "failed" } st0).1.isReportGenerating = false
       ∧ (applyTaskStatus { status := "failed" } st0).2
           = [Notification.taskFailed "Неизвестная ошибка"])
     ∧ ((applyTaskStatus { status := "completed-email-failed" } st0).1.loadingContributors = []
       ∧ (applyTaskStatus { status := "completed-email-failed" } st0).1.isReportGenerating = false)
     ∧ ((applyTaskStatus { status := "completed-no-email" } st0).1.isReportGenerating = false
       ∧ pollingEnabled (applyTaskStatus { status := "completed-no-email" } st0).1.taskId
           (applyTaskStatus { status := "completed-no-email" } st0).1.isReportGenerating = false
       ∧ (applyTaskStatus { status := "completed-no-email" } st0).1.loadingContributors
           = ["alice"])) := by
  decide

/-! ### Claims C1, C4, C10 — the submit guards of handleGenerateReview -/

theorem isEmpty_eq_false_of_ne_nil {α : Type _} {l : List α} (h : l ≠ []) :
    l.isEmpty = false := by
  cases l with
  | nil => exact absurd rfl h
  | cons a t => rfl

theorem email_guard_passes {st : MainState}
    (hEmail : st.email = "" ∨ validateEmail st.email = true) :
    (st.email != "" && !validateEmail st.email) = false := by
  rcases hEmail with h | h
  · simp [h]
  · simp [h]

/-- Claim C1: for a submission mixing zero-merge and positive-merge selected
contributors (repo info present, email guard passing), the pre-submit warning
names exactly the zero-merge contributors, and exactly one request is
dispatched whose contributor list is exactly the logins of the selected
contributors with a positive merge count. -/
theorem handleGenerateReview_mixed_selection (ri : RepoInfo)
    (dateFrom dateTo : Option String) (nowIso : String) (st : MainState)
    (hEmail : st.email = "" ∨ validateEmail st.email = true)
    (hPos : ∃ c ∈ st.selectedContributors, 0 < c.mergeCount)
    (hZero : ∃ c ∈ st.selectedContributors, c.mergeCount = 0) :
    (handleGenerateReview (some ri) dateFrom dateTo nowIso st).toasts =
      [Notification.zeroMergeWarning
        ((st.selectedContributors.filter (fun c => c.mergeCount == 0)).map (fun c => c.name))]
    ∧ (∀ n, n ∈ (st.selectedContributors.filter (fun c => c.mergeCount == 0)).map
          (fun c => c.name) ↔
        ∃ c ∈ st.selectedContributors, c.mergeCount = 0 ∧ c.name = n)
    ∧ ∃ req, (handleGenerateReview (some ri) dateFrom dateTo nowIso st).request = some req
        ∧ req.contributors =
            (st.selectedContributors.filter (fun c => 0 < c.mergeCount)).map (fun c => c.login)
        ∧ (∀ l, l ∈ req.contributors ↔
            ∃ c ∈ st.selectedContributors, 0 < c.mergeCount ∧ c.login = l) := by
  obtain ⟨cp, hcp, hcppos⟩ := hPos
  obtain ⟨cz, hcz, hczzero⟩ := hZero
  have hselne : st.selectedContributors.isEmpty = false :=
    isEmpty_eq_false_of_ne_nil (List.ne_nil_of_mem hcp)
  have hemailb := email_guard_passes hEmail
  have hzmem : cz ∈ st.selectedContributors.filter (fun c => c.mergeCount == 0) :=
    List.mem_filter.mpr ⟨hcz, by rw [hczzero]; rfl⟩
  have hzne : (st.selectedContributors.filter (fun c => c.mergeCount == 0)).isEmpty = false :=
    isEmpty_eq_false_of_ne_nil (List.ne_nil_of_mem hzmem)
  have hallb : st.selectedContributors.all (fun c => c.mergeCount == 0) = false := by
    rcases hall : st.selectedContributors.all (fun c => c.mergeCount == 0) with _ | _
    · rfl
    · have := (List.all_eq_true.mp hall) cp hcp
      simp only [beq_iff_eq] at this
      omega
  refine ⟨?_, ?_, ?_⟩
  · simp [handleGenerateReview, hselne, hemailb, hzne, hallb]
  · intro n
    simp only [List.mem_map, List.mem_filter, beq_iff_eq]
    constructor
    · rintro ⟨c, ⟨hc, hc0⟩, rfl⟩
      exact ⟨c, hc, hc0, rfl⟩
    · rintro ⟨c, hc, hc0, rfl⟩
      exact ⟨c, ⟨hc, hc0⟩, rfl⟩
  · have hreq : (handleGenerateReview (some ri) dateFrom dateTo nowIso st).request =
        some { owner := ri.owner, repo := ri.repo,
               contributors := (st.selectedContributors.filter
                 (fun c => 0 < c.mergeCount)).map (fun c => c.login),
               startDate := dateFrom.getD ri.createdAt, endDate := dateTo.getD nowIso,
               email := if st.email = "" then none else some st.email } := by
      simp [handleGenerateReview, hselne, hemailb, hallb]
    refine ⟨_, hreq, rfl, ?_⟩
    intro l
    simp only [List.mem_map, List.mem_filter, decide_eq_true_eq]
    constructor
    · rintro ⟨c, ⟨hc, hc0⟩, rfl⟩
      exact ⟨c, hc, hc0, rfl⟩
    · rintro ⟨c, hc, hc0, rfl⟩
      exact ⟨c, ⟨hc, hc0⟩, rfl⟩

/-- Claim C1 witness: selection `A` (3 merges) and `B` (0 merges): the warning
names exactly `B` and the dispatched request carries exactly `A`. -/
theorem handleGenerateReview_mixed_selection_witness :
    (let stW : MainState :=
      { selectedContributors :=
          [{ id := 1, login := "A", avatar_url := "", name := "A", email := "",
             mergeCount := 3 },
           { id := 2, login := "B", avatar_url := "", name := "B", email := "",
             mergeCount := 0 }],
        email := "", codeReviews := [], loadingContributors := [], taskId := none,
        isReportGenerating := false, showReportsSection := false,
        processingContributors := [] }
     (handleGenerateReview (some { owner := "acme", repo := "widgets", createdAt := "2020-01-01" })
        none none "2024-01-01" stW).toasts = [Notification.zeroMergeWarning ["B"]]
     ∧ ∃ req, (handleGenerateReview
           (some { owner := "acme", repo := "widgets", createdAt := "2020-01-01" })
           none none "2024-01-01" stW).request = some req
         ∧ req.contributors = ["A"]) := by
  have base := handleGenerateReview_mixed_selection
    { owner := "acme", repo := "widgets", createdAt := "2020-01-01" } none none "2024-01-01"
    { selectedContributors :=
        [{ id := 1, login := "A", avatar_url := "", name := "A", email := "",
           mergeCount := 3 },
         { id := 2, login := "B", avatar_url := "", name := "B", email := "",
           mergeCount := 0 }],
      email := "", codeReviews := [], loadingContributors := [], taskId := none,
      isReportGenerating := false, showReportsSection := false,
      processingContributors := [] }
    (Or.inl rfl)
    ⟨{ id := 1, login := "A", avatar_url := "", name := "A", email := "", mergeCount := 3 },
      by decide, by decide⟩
    ⟨{ id := 2, login := "B", avatar_url := "", name := "B", email := "", mergeCount := 0 },
      by decide, rfl⟩
  refine ⟨?_, ?_⟩
  · rw [base.1]
    decide
  · obtain ⟨req, hreq, hcontrib, _⟩ := base.2.2
    refine ⟨req, hreq, ?_⟩
    rw [hcontrib]
    decide

/-- Claim C4: when every selected contributor has merge count 0 (selection
non-empty, email guard passing), the submit aborts before any network call:
the outcome is exactly the unchanged state, no request, the single zero-merge
warning naming all selected contributors, and the scroll back to the
contributors section. -/
theorem handleGenerateReview_all_zero (ri : RepoInfo)
    (dateFrom dateTo : Option String) (nowIso : String) (st : MainState)
    (hEmail : st.email = "" ∨ validateEmail st.email = true)
    (hne : st.selectedContributors ≠ [])
    (hAll : ∀ c ∈ st.selectedContributors, c.mergeCount = 0) :
    handleGenerateReview (some ri) dateFrom dateTo nowIso st =
      { state := st, request := none,
        toasts := [Notification.zeroMergeWarning
          (st.selectedContributors.map (fun c => c.name))],
        scrolls := [ScrollTarget.contributorsSection] } := by
  have hselne : st.selectedContributors.isEmpty = false := isEmpty_eq_false_of_ne_nil hne
  have hemailb := email_guard_passes hEmail
  have hfilter : st.selectedContributors.filter (fun c => c.mergeCount == 0)
      = st.selectedContributors :=
    List.filter_eq_self.mpr (fun c hc => by rw [hAll c hc]; rfl)
  have hallb : st.selectedContributors.all (fun c => c.mergeCount == 0) = true :=
    List.all_eq_true.mpr (fun c hc => by rw [hAll c hc]; rfl)
  simp [handleGenerateReview, hselne, hemailb, hfilter, hallb]

/-- Claim C4 witness: a single selected contributor with zero merges. -/
theorem handleGenerateReview_all_zero_witness :
    (let stW : MainState :=
      { selectedContributors :=
          [{ id := 2, login := "B", avatar_url := "", name := "B", email := "",
             mergeCount := 0 }],
        email := "", codeReviews := [], loadingContributors := [], taskId := none,
        isReportGenerating := false, showReportsSection := false,
        processingContributors := [] }
     handleGenerateReview
         (some { owner := "acme", repo := "widgets", createdAt := "2020-01-01" })
         none none "2024-01-01" stW =
       { state := stW, request := none,
         toasts := [Notification.zeroMergeWarning
           (stW.selectedContributors.map (fun c => c.name))],
         scrolls := [ScrollTarget.contributorsSection] }) :=
  handleGenerateReview_all_zero
    { owner := "acme", repo := "widgets", createdAt := "2020-01-01" } none none "2024-01-01"
    _ (Or.inl rfl) (by decide) (by decide)

/-- Claim C10: a non-empty email failing `validateEmail` aborts the submission
with exactly the invalid-email error toast — no request, no state mutation, no
scroll, and in particular no zero-merge warning (the abort precedes the
zero-merge partition check, whatever the selection); an empty email never
blocks: when some selected contributor has merges the request is dispatched
with no email field. -/
theorem handleGenerateReview_email_guard (ri : RepoInfo)
    (dateFrom dateTo : Option String) (nowIso : String) (st : MainState) :
    (st.email ≠ "" → validateEmail st.email = false → st.selectedContributors ≠ [] →
      handleGenerateReview (some ri) dateFrom dateTo nowIso st =
        { state := st, request := none, toasts := [Notification.invalidEmailError],
          scrolls := [] })
    ∧ (st.email = "" → (∃ c ∈ st.selectedContributors, 0 < c.mergeCount) →
        ∃ req, (handleGenerateReview (some ri) dateFrom dateTo nowIso st).request = some req
          ∧ req.email = none) := by
  constructor
  · intro hne hbad hsel
    have hselne : st.selectedContributors.isEmpty = false := isEmpty_eq_false_of_ne_nil hsel
    have hcond : (st.email != "" && !validateEmail st.email) = true := by
      simp [hne, hbad]
    simp [handleGenerateReview, hselne, hcond]
  · intro hempty hPos
    obtain ⟨cp, hcp, hcppos⟩ := hPos
    have hselne : st.selectedContributors.isEmpty = false :=
      isEmpty_eq_false_of_ne_nil (List.ne_nil_of_mem hcp)
    have hemailb := email_guard_passes (Or.inl hempty)
    have hallb : st.selectedContributors.all (fun c => c.mergeCount == 0) = false := by
      rcases hall : st.selectedContributors.all (fun c => c.mergeCount == 0) with _ | _
      · rfl
      · have := (List.all_eq_true.mp hall) cp hcp
        simp only [beq_iff_eq] at this
        omega
    have hreq : (handleGenerateReview (some ri) dateFrom dateTo nowIso st).request =
        some { owner := ri.owner, repo := ri.repo,
               contributors := (st.selectedContributors.filter
                 (fun c => 0 < c.mergeCount)).map (fun c => c.login),
               startDate := dateFrom.getD ri.createdAt, endDate := dateTo.getD nowIso,
               email := if st.email = "" then none else some st.email } := by
      simp [handleGenerateReview, hselne, hemailb, hallb]
    refine ⟨_, hreq, ?_⟩
    simp [hempty]

/-- Claim C10 witness: the invalid email `not-an-email` aborts with only the
error toast even though the sole selected contributor has zero merges; the
empty email dispatches with no email field. -/
theorem handleGenerateReview_email_guard_witness :
    (let stBad : MainState :=
      { selectedContributors :=
          [{ id := 2, login := "B", avatar_url := "", name := "B", email := "",
             mergeCount := 0 }],
        email := "not-an-email", codeReviews := [], loadingContributors := [],
        taskId := none, isReportGenerating := false, showReportsSection := false,
        processingContributors := [] }
     handleGenerateReview
         (some { owner := "acme", repo := "widgets", createdAt := "2020-01-01" })
         none none "2024-01-01" stBad =
       { state := stBad, request := none, toasts := [Notification.invalidEmailError],
         scrolls := [] })
    ∧ (let stOk : MainState :=
        { selectedContributors :=
            [{ id := 1, login := "A", avatar_url := "", name := "A", email := "",
               mergeCount := 3 }],
          email := "", codeReviews := [], loadingContributors := [], taskId := none,
          isReportGenerating := false, showReportsSection := false,
          processingContributors := [] }
       ∃ req, (handleGenerateReview
           (some { owner := "acme", repo := "widgets", createdAt := "2020-01-01" })
           none none "2024-01-01" stOk).request = some req ∧ req.email = none) :=
  ⟨(handleGenerateReview_email_guard
      { owner := "acme", repo := "widgets", createdAt := "2020-01-01" } none none "2024-01-01"
      _).1 (by decide) (by decide) (by decide),
   (handleGenerateReview_email_guard
      { owner := "acme", repo := "widgets", createdAt := "2020-01-01" } none none "2024-01-01"
      _).2 rfl
     ⟨{ id := 1, login := "A", avatar_url := "", name := "A", email := "", mergeCount := 3 },
       by decide, by decide⟩⟩

/-! ### Claim C6 — contributor filter and display sort -/

theorem startsWithChars_iff (pre : List Char) : ∀ s : List Char,
    (startsWithChars s pre = true ↔ ∃ rest, s = pre ++ rest) := by
  induction pre with
  | nil =>
    intro s
    constructor
    · intro _; exact ⟨s, rfl⟩
    · intro _; cases s <;> rfl
  | cons p ps ih =>
    intro s
    cases s with
    | nil =>
      constructor
      · intro h; exact absurd h (by simp [startsWithChars])
      · rintro ⟨rest, h⟩; exact absurd h (by simp)
    | cons x xs =>
      simp only [startsWithChars, Bool.and_eq_true, beq_iff_eq, ih xs]
      constructor
      · rintro ⟨rfl, rest, rfl⟩
        exact ⟨rest, rfl⟩
      · rintro ⟨rest, h⟩
        injection h with h1 h2
        exact ⟨h1, rest, h2⟩

theorem containsChars_iff (needle : List Char) : ∀ hay : List Char,
    (containsChars hay needle = true ↔ List.IsInfix needle hay) := by
  intro hay
  induction hay with
  | nil =>
    simp only [containsChars, List.isEmpty_iff]
    constructor
    · rintro rfl
      exact ⟨[], [], rfl⟩
    · rintro ⟨s, t, h⟩
      simp only [List.append_eq_nil] at h
      exact h.1.2
  | cons x xs ih =>
    simp only [containsChars, Bool.or_eq_true, ih, startsWithChars_iff]
    constructor
    · rintro (⟨rest, hrest⟩ | ⟨s, t, hst⟩)
      · exact ⟨[], rest, by simp [hrest.symm]⟩
      · exact ⟨x :: s, t, by simp [← hst]⟩
    · rintro ⟨s, t, h⟩
      cases s with
      | nil =>
        left
        exact ⟨t, by simpa using h.symm⟩
      | cons y ys =>
        right
        rw [List.cons_append, List.cons_append] at h
        injection h with h1 h2
        exact ⟨ys, t, h2⟩

theorem insertByMergeCount_mem (b c : Contributor) (l : List Contributor) :
    b ∈ insertByMergeCount c l ↔ b = c ∨ b ∈ l := by
  induction l with
  | nil => simp [insertByMergeCount]
  | cons x xs ih =>
    by_cases hc : x.mergeCount ≤ c.mergeCount
    · simp [insertByMergeCount, hc]
    · simp only [insertByMergeCount, if_neg hc, List.mem_cons, ih]
      tauto

theorem insertByMergeCount_pairwise (c : Contributor) (l : List Contributor)
    (h : List.Pairwise (fun a b => b.mergeCount ≤ a.mergeCount) l) :
    List.Pairwise (fun a b => b.mergeCount ≤ a.mergeCount) (insertByMergeCount c l) := by
  induction l with
  | nil => exact List.pairwise_singleton _ _
  | cons x xs ih =>
    rw [List.pairwise_cons] at h
    by_cases hc : x.mergeCount ≤ c.mergeCount
    · rw [insertByMergeCount, if_pos hc, List.pairwise_cons]
      refine ⟨?_, List.pairwise_cons.mpr h⟩
      intro b hb
      rcases List.mem_cons.mp hb with rfl | hb
      · exact hc
      · exact Nat.le_trans (h.1 b hb) hc
    · rw [insertByMergeCount, if_neg hc, List.pairwise_cons]
      refine ⟨?_, ih h.2⟩
      intro b hb
      rcases (insertByMergeCount_mem b c xs).mp hb with rfl | hb
      · exact Nat.le_of_not_le hc
      · exact h.1 b hb

theorem insertByMergeCount_filter (c : Contributor) (l : List Contributor) (k : Nat) :
    (insertByMergeCount c l).filter (fun x => x.mergeCount == k) =
      if c.mergeCount == k then c :: l.filter (fun x => x.mergeCount == k)
      else l.filter (fun x => x.mergeCount == k) := by
  induction l with
  | nil =>
    by_cases hk : c.mergeCount == k <;> simp [insertByMergeCount, hk]
  | cons x xs ih =>
    by_cases hc : x.mergeCount ≤ c.mergeCount
    · rw [insertByMergeCount, if_pos hc]
      by_cases hk : c.mergeCount == k <;> simp [List.filter_cons, hk]
    · rw [insertByMergeCount, if_neg hc]
      rw [List.filter_cons, List.filter_cons]
      by_cases hxk : x.mergeCount == k
      · by_cases hck : c.mergeCount == k
        · exfalso
          simp only [beq_iff_eq] at hxk hck
          omega
        · simp [hxk, hck, ih]
      · by_cases hck : c.mergeCount == k
        · simp [hxk, hck, ih]
        · simp [hxk, hck, ih]

theorem sortedContributors_pairwise (l : List Contributor) :
    List.Pairwise (fun a b => b.mergeCount ≤ a.mergeCount) (sortedContributors l) := by
  induction l with
  | nil => exact List.Pairwise.nil
  | cons x xs ih => exact insertByMergeCount_pairwise x _ ih

theorem sortedContributors_filter (l : List Contributor) (k : Nat) :
    (sortedContributors l).filter (fun c => c.mergeCount == k) =
      l.filter (fun c => c.mergeCount == k) := by
  induction l with
  | nil => rfl
  | cons x xs ih =>
    show (insertByMergeCount x (sortedContributors xs)).filter _ = _
    rw [insertByMergeCount_filter, List.filter_cons, ih]

/-- Claim C6: a whitespace-only (or empty) filter string leaves the contributor
list unchanged; a filter with substance keeps exactly the contributors whose
lower-cased email or name contains the lower-cased filter as a contiguous
substring; and the display sort is descending by merge count with ties kept in
original fetch order — expressed as: the output is pairwise non-increasing in
merge count, and for every merge-count value the sub-list of contributors with
that count is exactly the input's sub-list (which also makes the output a
permutation of the input). -/
theorem contributorsTable_filter_sort (contributors : List Contributor) (emailFilter : String) :
    (emailFilter.data.all isWsChar = true →
        filteredContributors contributors emailFilter = contributors)
    ∧ (emailFilter.data.all isWsChar = false →
        ∀ c, c ∈ filteredContributors contributors emailFilter ↔
          c ∈ contributors ∧
            (List.IsInfix (lowerChars emailFilter.data) (lowerChars c.email.data) ∨
             List.IsInfix (lowerChars emailFilter.data) (lowerChars c.name.data)))
    ∧ List.Pairwise (fun a b => b.mergeCount ≤ a.mergeCount) (sortedContributors contributors)
    ∧ ∀ k, (sortedContributors contributors).filter (fun c => c.mergeCount == k) =
        contributors.filter (fun c => c.mergeCount == k) := by
  refine ⟨?_, ?_, sortedContributors_pairwise contributors,
          sortedContributors_filter contributors⟩
  · intro h
    have hany : emailFilter.data.any (fun ch => !isWsChar ch) = false := by
      rw [List.any_eq_false]
      intro x hx
      simp [List.all_eq_true.mp h x hx]
    rw [filteredContributors, hany]
    rfl
  · intro h
    have hany : emailFilter.data.any (fun ch => !isWsChar ch) = true := by
      obtain ⟨x, hx, hxw⟩ := List.all_eq_false.mp h
      rw [List.any_eq_true]
      exact ⟨x, hx, by simp [Bool.not_eq_true] at hxw; simp [hxw]⟩
    intro c
    rw [filteredContributors, hany, if_pos rfl]
    rw [List.mem_filter, matchesEmailFilter]
    rw [Bool.or_eq_true, containsChars_iff, containsChars_iff]

/-- Claim C6 witness: contributors Alice (2 merges), Bob (5), Carol (2); the
whitespace filter leaves the list unchanged, the filter `LI` matches Alice by
name case-insensitively, the sort puts Bob first and keeps Alice before Carol
(tie preserved in fetch order). -/
theorem contributorsTable_filter_sort_witness :
    (let aliceC : Contributor :=
      { id := 1, login := "alice", avatar_url := "", name := "Alice",
        email := "alice@acme.dev", mergeCount := 2 }
     let bobC : Contributor :=
      { id := 2, login := "bob", avatar_url := "", name := "Bob",
        email := "bob@acme.dev", mergeCount := 5 }
     let carolC : Contributor :=
      { id := 3, login := "carol", avatar_url := "", name := "Carol",
        email := "carol@acme.dev", mergeCount := 2 }
     filteredContributors [aliceC, bobC, carolC] " " = [aliceC, bobC, carolC]
     ∧ (aliceC ∈ filteredContributors [aliceC, bobC, carolC] "LI" ↔
         aliceC ∈ [aliceC, bobC, carolC] ∧
           (List.IsInfix (lowerChars "LI".data) (lowerChars aliceC.email.data) ∨
            List.IsInfix (lowerChars "LI".data) (lowerChars aliceC.name.data)))
     ∧ List.Pairwise (fun a b => b.mergeCount ≤ a.mergeCount)
         (sortedContributors [aliceC, bobC, carolC])
     ∧ (sortedContributors [aliceC, bobC, carolC]).filter (fun c => c.mergeCount == 2) =
         [aliceC, bobC, carolC].filter (fun c => c.mergeCount == 2)) :=
  ⟨(contributorsTable_filter_sort _ " ").1 (by decide),
   (contributorsTable_filter_sort _ "LI").2.1 (by decide) _,
   (contributorsTable_filter_sort _ "LI").2.2.1,
   (contributorsTable_filter_sort _ "LI").2.2.2 2⟩

/-! ### Claim C3 — idempotence of the partial-merge step -/

theorem upsertReview_find_self (key : String) (nr : CodeReview) (rvs : List CodeReview)
    (hkey : nr.login = key) :
    (upsertReview key nr rvs).find? (fun rv => rv.login == key) = some nr := by
  induction rvs with
  | nil => simp [upsertReview, List.find?, hkey]
  | cons rv rvs ih =>
    by_cases h : rv.login == key
    · simp [upsertReview, h, List.find?, hkey]
    · simp only [upsertReview, h, Bool.false_eq_true, if_false]
      rw [List.find?]
      simp [h, ih]

theorem upsertReview_find_other (key k2 : String) (nr : CodeReview) (rvs : List CodeReview)
    (hkey : nr.login = key) (hne : k2 ≠ key) :
    (upsertReview key nr rvs).find? (fun rv => rv.login == k2) =
      rvs.find? (fun rv => rv.login == k2) := by
  have hnr : (nr.login == k2) = false := by
    rw [hkey]
    exact beq_false_of_ne (Ne.symm hne)
  induction rvs with
  | nil => simp [upsertReview, List.find?, hnr]
  | cons rv rvs ih =>
    by_cases h : rv.login == key
    · have hrv : (rv.login == k2) = false := by
        rw [eq_of_beq h]
        exact beq_false_of_ne (Ne.symm hne)
      simp only [upsertReview, h, if_true]
      rw [List.find?, List.find?, hnr, hrv]
    · simp only [upsertReview, h, Bool.false_eq_true, if_false]
      rw [List.find?, List.find?]
      cases hrv : rv.login == k2
      · simpa [hrv] using ih
      · rfl

theorem upsertReview_of_find (key : String) (nr : CodeReview) (rvs : List CodeReview)
    (h : rvs.find? (fun rv => rv.login == key) = some nr) :
    upsertReview key nr rvs = rvs := by
  induction rvs with
  | nil => simp [List.find?] at h
  | cons rv rvs ih =>
    rw [List.find?] at h
    by_cases hrv : rv.login == key
    · rw [hrv] at h
      injection h with h
      rw [upsertReview, if_pos hrv, h]
    · rw [upsertReview, if_neg hrv]
      simp only [hrv, Bool.false_eq_true] at h
      rw [ih h]

theorem upsertReview_mem (b : CodeReview) (key : String) (nr : CodeReview)
    (rvs : List CodeReview) (hb : b ∈ upsertReview key nr rvs) : b = nr ∨ b ∈ rvs := by
  induction rvs with
  | nil => simpa [upsertReview] using hb
  | cons rv rvs ih =>
    by_cases hrv : rv.login == key
    · rw [upsertReview, if_pos hrv] at hb
      rcases List.mem_cons.mp hb with rfl | hb
      · exact Or.inl rfl
      · exact Or.inr (List.mem_cons_of_mem rv hb)
    · rw [upsertReview, if_neg hrv] at hb
      rcases List.mem_cons.mp hb with rfl | hb
      · exact Or.inr (List.mem_cons_self _ _)
      · rcases ih hb with h | h
        · exact Or.inl h
        · exact Or.inr (List.mem_cons_of_mem rv h)

theorem upsertReview_map_login (key : String) (nr : CodeReview) (rvs : List CodeReview)
    (hkey : nr.login = key) :
    (upsertReview key nr rvs).map (fun rv => rv.login) =
      if rvs.any (fun rv => rv.login == key) then rvs.map (fun rv => rv.login)
      else rvs.map (fun rv => rv.login) ++ [key] := by
  induction rvs with
  | nil => simp [upsertReview, hkey]
  | cons rv rvs ih =>
    by_cases hrv : rv.login == key
    · rw [upsertReview, if_pos hrv]
      have : (rv :: rvs).any (fun rv => rv.login == key) = true := by
        simp [List.any_cons, hrv]
      rw [this, if_pos rfl]
      simp [hkey, eq_of_beq hrv]
    · rw [upsertReview, if_neg hrv]
      rw [List.any_cons]
      simp only [hrv, Bool.false_or]
      rw [List.map_cons, List.map_cons, ih]
      by_cases hany : rvs.any (fun rv => rv.login == key) <;> simp [hany]

/-- `partialStep` never changes the selection or the email. -/
theorem partialStep_selected (results : Option (List (String × ContributorResult)))
    (st : MainState) (l : String) :
    (partialStep results st l).selectedContributors = st.selectedContributors
    ∧ (partialStep results st l).email = st.email := by
  cases h : lookupResult results l <;>
    simp [partialStep, h, processInState, removeLoading]

theorem mem_loading_partialStep {results : Option (List (String × ContributorResult))}
    {st : MainState} {l x : String} (hx : x ∈ (partialStep results st l).loadingContributors) :
    x ∈ st.loadingContributors := by
  cases h : lookupResult results l
  · rw [partialStep, h] at hx
    exact hx
  · rw [partialStep, h] at hx
    simp only [processInState, removeLoading] at hx
    exact (List.mem_filter.mp hx).1

/-- After running `partialStep` for `l`, the state is stable at `l`. -/
theorem partialStep_stable (results : Option (List (String × ContributorResult)))
    (st : MainState) (l : String) : StableAt results l (partialStep results st l) := by
  cases hl : lookupResult results l with
  | none => rw [StableAt, hl]; trivial
  | some r =>
    rw [StableAt, hl, partialStep, hl]
    constructor
    · simp [processInState, removeLoading, List.mem_filter]
    · simp only [processInState, removeLoading]
      cases hfind : st.selectedContributors.find? (fun c => c.login == l) with
      | none => trivial
      | some c =>
        have hlogin : c.login = l := by
          have hp := List.find?_some hfind
          simpa using hp
        rw [reviewFor, processContributorResult, hfind, ← hlogin,
          upsertReview_find_self c.login (mkProcessedReview st.email c r) st.codeReviews rfl]

/-- Stability at `l` survives a `partialStep` for any login. -/
theorem partialStep_preserves_stable (results : Option (List (String × ContributorResult)))
    (st : MainState) (l l2 : String) (h : StableAt results l st) :
    StableAt results l (partialStep results st l2) := by
  cases hl : lookupResult results l with
  | none => rw [StableAt, hl]; trivial
  | some r =>
    rw [StableAt, hl] at h
    obtain ⟨hload, hrev⟩ := h
    cases hl2 : lookupResult results l2 with
    | none => rw [StableAt, hl, partialStep, hl2]; exact ⟨hload, hrev⟩
    | some r2 =>
      rw [StableAt, hl, partialStep, hl2]
      constructor
      · intro hmem
        simp only [processInState, removeLoading] at hmem
        exact hload (List.mem_filter.mp hmem).1
      · simp only [processInState, removeLoading]
        cases hfind : st.selectedContributors.find? (fun c => c.login == l) with
        | none => trivial
        | some c =>
          rw [hfind] at hrev
          by_cases heq : l2 = l
          · subst heq
            rw [hl2] at hl
            injection hl with hl
            subst hl
            rw [reviewFor, processContributorResult, hfind]
            have hlogin : c.login = l2 := by
              have hp := List.find?_some hfind
              simpa using hp
            rw [← hlogin,
              upsertReview_find_self c.login (mkProcessedReview st.email c r2) st.codeReviews rfl]
          · rw [reviewFor, processContributorResult]
            cases hfind2 : st.selectedContributors.find? (fun c => c.login == l2) with
            | none => exact hrev
            | some c2 =>
              have hlogin2 : c2.login = l2 := by
                have hp2 := List.find?_some hfind2
                simpa using hp2
              rw [upsertReview_find_other c2.login l
                (mkProcessedReview st.email c2 r2) st.codeReviews rfl
                (by rw [hlogin2]; exact fun e => heq e.symm)]
              exact hrev

theorem foldl_partialStep_preserves_stable
    (results : Option (List (String × ContributorResult))) (l : String) :
    ∀ (cc : List String) (st : MainState), StableAt results l st →
      StableAt results l (cc.foldl (partialStep results) st) := by
  intro cc
  induction cc with
  | nil => intro st h; exact h
  | cons l2 rest ih =>
    intro st h
    exact ih _ (partialStep_preserves_stable results st l l2 h)

/-- After the whole partial merge, the state is stable at every completed
login. -/
theorem applyPartialMerge_stable (results : Option (List (String × ContributorResult))) :
    ∀ (cc : List String) (st : MainState) (l : String), l ∈ cc →
      StableAt results l (applyPartialMerge cc results st) := by
  intro cc
  induction cc with
  | nil => intro st l hl; exact absurd hl (List.not_mem_nil l)
  | cons l0 rest ih =>
    intro st l hl
    rcases List.mem_cons.mp hl with rfl | hl
    · exact foldl_partialStep_preserves_stable results l rest _
        (partialStep_stable results st l)
    · exact ih _ l hl

/-- A `partialStep` for a login at which the state is already stable is the
identity. -/
theorem partialStep_of_stable (results : Option (List (String × ContributorResult)))
    (st : MainState) (l : String) (h : StableAt results l st) :
    partialStep results st l = st := by
  cases hl : lookupResult results l with
  | none => rw [partialStep, hl]
  | some r =>
    rw [StableAt, hl] at h
    obtain ⟨hload, hrev⟩ := h
    have hfilter : st.loadingContributors.filter (fun x => x != l) = st.loadingContributors := by
      refine List.filter_eq_self.mpr ?_
      intro x hx
      have hxl : x ≠ l := fun e => hload (e ▸ hx)
      simp [hxl]
    have hrl : removeLoading l st = st := by
      rw [removeLoading, hfilter]
    rw [partialStep, hl, hrl]
    simp only [processInState, processContributorResult]
    cases hfind : st.selectedContributors.find? (fun c => c.login == l) with
    | none => rfl
    | some c =>
      rw [hfind] at hrev
      have hlogin : c.login = l := by
        have hp := List.find?_some hfind
        simpa using hp
      rw [reviewFor, ← hlogin] at hrev
      have hrev2 : List.find? (fun rv => rv.login == c.login) st.codeReviews
          = some (mkProcessedReview st.email c r) := hrev
      show { st with codeReviews :=
          upsertReview c.login (mkProcessedReview st.email c r) st.codeReviews } = st
      rw [upsertReview_of_find _ _ _ hrev2]

theorem foldl_partialStep_id (results : Option (List (String × ContributorResult))) :
    ∀ (cc : List String) (st : MainState), (∀ l ∈ cc, StableAt results l st) →
      cc.foldl (partialStep results) st = st := by
  intro cc
  induction cc with
  | nil => intro st _; rfl
  | cons l0 rest ih =>
    intro st h
    rw [List.foldl_cons, partialStep_of_stable results st l0 (h l0 (List.mem_cons_self _ _))]
    exact ih st (fun l hl => h l (List.mem_cons_of_mem l0 hl))

theorem partialStep_reviewFor_other (results : Option (List (String × ContributorResult)))
    (st : MainState) (l2 l : String) (hne : l ≠ l2) :
    reviewFor l (partialStep results st l2).codeReviews = reviewFor l st.codeReviews := by
  cases hl2 : lookupResult results l2 with
  | none => rw [partialStep, hl2]
  | some r2 =>
    rw [partialStep, hl2]
    simp only [processInState, removeLoading]
    rw [processContributorResult]
    cases hfind2 : st.selectedContributors.find? (fun c => c.login == l2) with
    | none => rfl
    | some c2 =>
      have hlogin2 : c2.login = l2 := by
        have hp2 := List.find?_some hfind2
        simpa using hp2
      exact upsertReview_find_other c2.login l
        (mkProcessedReview st.email c2 r2) st.codeReviews rfl
        (by rw [hlogin2]; exact hne)

theorem foldl_partialStep_reviewFor_other
    (results : Option (List (String × ContributorResult))) (l : String) :
    ∀ (cc : List String) (st : MainState), l ∉ cc →
      reviewFor l (cc.foldl (partialStep results) st).codeReviews =
        reviewFor l st.codeReviews := by
  intro cc
  induction cc with
  | nil => intro st _; rfl
  | cons l0 rest ih =>
    intro st hl
    have hne : l ≠ l0 := fun e => hl (e ▸ List.mem_cons_self l0 rest)
    rw [List.foldl_cons, ih _ (fun hmem => hl (List.mem_cons_of_mem l0 hmem)),
      partialStep_reviewFor_other results st l0 l hne]

theorem processContributorResult_nodup (sel : List Contributor) (email login : String)
    (r : ContributorResult) (rvs : List CodeReview)
    (h : (rvs.map (fun rv => rv.login)).Nodup) :
    ((processContributorResult sel email login r rvs).map (fun rv => rv.login)).Nodup := by
  rw [processContributorResult]
  cases hfind : sel.find? (fun c => c.login == login) with
  | none => exact h
  | some c =>
    show ((upsertReview c.login (mkProcessedReview email c r) rvs).map
      (fun rv => rv.login)).Nodup
    rw [upsertReview_map_login c.login (mkProcessedReview email c r) rvs rfl]
    by_cases hany : rvs.any (fun rv => rv.login == c.login)
    · rw [if_pos hany]; exact h
    · rw [if_neg hany]
      rw [Bool.not_eq_true] at hany
      rw [List.any_eq_false] at hany
      have hnotin : c.login ∉ rvs.map (fun rv => rv.login) := by
        rw [List.mem_map]
        rintro ⟨rv, hrv, hlog⟩
        exact hany rv hrv (by rw [hlog]; exact beq_self_eq_true _)
      simp [List.nodup_append, h, hnotin]

theorem partialStep_nodup (results : Option (List (String × ContributorResult)))
    (st : MainState) (l : String)
    (h : (st.codeReviews.map (fun rv => rv.login)).Nodup) :
    (((partialStep results st l).codeReviews).map (fun rv => rv.login)).Nodup := by
  cases hl : lookupResult results l with
  | none => rw [partialStep, hl]; exact h
  | some r =>
    rw [partialStep, hl]
    simp only [processInState, removeLoading]
    exact processContributorResult_nodup _ _ _ _ _ h

theorem foldl_partialStep_nodup (results : Option (List (String × ContributorResult))) :
    ∀ (cc : List String) (st : MainState),
      (st.codeReviews.map (fun rv => rv.login)).Nodup →
      (((cc.foldl (partialStep results) st).codeReviews).map (fun rv => rv.login)).Nodup := by
  intro cc
  induction cc with
  | nil => intro st h; exact h
  | cons l0 rest ih =>
    intro st h
    rw [List.foldl_cons]
    exact ih _ (partialStep_nodup results st l0 h)

/-- Claim C3: the partial-merge step is idempotent — applying the same
`partial` snapshot (`completed_contributors` plus `results`) twice yields
exactly the state reached by applying it once. Moreover, after one
application every completed login that has an entry in `results` is out of the
awaiting list; the displayed review of any login not listed as completed is
untouched (placeholders kept); and the merge never duplicates a review key
(a duplicate-free review list stays duplicate-free, replacement rather than
append). -/
theorem applyPartialMerge_idempotent (cc : List String)
    (results : Option (List (String × ContributorResult))) (st : MainState) :
    applyPartialMerge cc results (applyPartialMerge cc results st) =
      applyPartialMerge cc results st
    ∧ (∀ l ∈ cc, (lookupResult results l).isSome = true →
        l ∉ (applyPartialMerge cc results st).loadingContributors)
    ∧ (∀ l, l ∉ cc →
        reviewFor l (applyPartialMerge cc results st).codeReviews =
          reviewFor l st.codeReviews)
    ∧ ((st.codeReviews.map (fun rv => rv.login)).Nodup →
        (((applyPartialMerge cc results st).codeReviews).map (fun rv => rv.login)).Nodup) := by
  refine ⟨?_, ?_, ?_, ?_⟩
  · exact foldl_partialStep_id results cc _
      (fun l hl => applyPartialMerge_stable results cc st l hl)
  · intro l hl hsome
    have hst := applyPartialMerge_stable results cc st l hl
    cases hlk : lookupResult results l with
    | none => rw [hlk] at hsome; exact absurd hsome (by simp)
    | some r =>
      rw [StableAt, hlk] at hst
      exact hst.1
  · intro l hl
    exact foldl_partialStep_reviewFor_other results l cc st hl
  · intro h
    exact foldl_partialStep_nodup results cc st h

/-- Claim C3 witness: a partial snapshot completing `alice` (with a result)
while `bob` stays awaiting, applied to a freshly submitted state with both
placeholders: idempotence and the three sub-properties at concrete inputs. -/
theorem applyPartialMerge_idempotent_witness :
    (let aliceC : Contributor :=
      { id := 1, login := "alice", avatar_url := "", name := "Alice",
        email := "alice@acme.dev", mergeCount := 3 }
     let bobC : Contributor :=
      { id := 2, login := "bob", avatar_url := "", name := "Bob",
        email := "bob@acme.dev", mergeCount := 2 }
     let stW : MainState :=
      { selectedContributors := [aliceC, bobC], email := "",
        codeReviews :=
          [placeholderReview [aliceC, bobC] "" "alice",
           placeholderReview [aliceC, bobC] "" "bob"],
        loadingContributors := ["alice", "bob"], taskId := some "t1",
        isReportGenerating := true, showReportsSection := true,
        processingContributors := [] }
     let resW : Option (List (String × ContributorResult)) :=
       some [("alice", { total_count := some 3 })]
     applyPartialMerge ["alice"] resW (applyPartialMerge ["alice"] resW stW) =
       applyPartialMerge ["alice"] resW stW
     ∧ "alice" ∉ (applyPartialMerge ["alice"] resW stW).loadingContributors
     ∧ reviewFor "bob" (applyPartialMerge ["alice"] resW stW).codeReviews =
         reviewFor "bob" stW.codeReviews
     ∧ (((applyPartialMerge ["alice"] resW stW).codeReviews).map
         (fun rv => rv.login)).Nodup) := by
  have base := applyPartialMerge_idempotent ["alice"]
    (some [("alice", { total_count := some 3 })])
    { selectedContributors :=
        [{ id := 1, login := "alice", avatar_url := "", name := "Alice",
           email := "alice@acme.dev", mergeCount := 3 },
         { id := 2, login := "bob", avatar_url := "", name := "Bob",
           email := "bob@acme.dev", mergeCount := 2 }],
      email := "",
      codeReviews :=
        [placeholderReview
          [{ id := 1, login := "alice", avatar_url := "", name := "Alice",
             email := "alice@acme.dev", mergeCount := 3 },
           { id := 2, login := "bob", avatar_url := "", name := "Bob",
             email := "bob@acme.dev", mergeCount := 2 }] "" "alice",
         placeholderReview
          [{ id := 1, login := "alice", avatar_url := "", name := "Alice",
             email := "alice@acme.dev", mergeCount := 3 },
           { id := 2, login := "bob", avatar_url := "", name := "Bob",
             email := "bob@acme.dev", mergeCount := 2 }] "" "bob"],
      loadingContributors := ["alice", "bob"], taskId := some "t1",
      isReportGenerating := true, showReportsSection := true,
      processingContributors := [] }
  exact ⟨base.1, base.2.1 "alice" (by decide) (by decide),
    base.2.2.1 "bob" (by decide), base.2.2.2 (by decide)⟩

/-! ### Claim C9 — dropped results for unselected logins -/

theorem processContributorResult_invariant (sel : List Contributor) (email login : String)
    (r : ContributorResult) (rvs : List CodeReview)
    (h : ∀ rv ∈ rvs, rv.login ∈ sel.map (fun c => c.login)) :
    ∀ rv ∈ processContributorResult sel email login r rvs,
      rv.login ∈ sel.map (fun c => c.login) := by
  rw [processContributorResult]
  cases hfind : sel.find? (fun c => c.login == login) with
  | none => exact h
  | some c =>
    intro rv hrv
    have hrv2 : rv ∈ upsertReview c.login (mkProcessedReview email c r) rvs := hrv
    rcases upsertReview_mem rv c.login _ rvs hrv2 with rfl | hmem
    · exact List.mem_map.mpr ⟨c, List.mem_of_find?_eq_some hfind, rfl⟩
    · exact h rv hmem

theorem inv_processInState (login : String) (r : ContributorResult) (st : MainState)
    (h : reviewsMatchSelection st) : reviewsMatchSelection (processInState login r st) :=
  fun rv hrv => processContributorResult_invariant
    st.selectedContributors st.email login r st.codeReviews h rv hrv

theorem inv_removeLoading (login : String) (st : MainState)
    (h : reviewsMatchSelection st) : reviewsMatchSelection (removeLoading login st) :=
  fun rv hrv => h rv hrv

theorem inv_stepResultsAll (entries : List (String × ContributorResult)) :
    ∀ st : MainState, reviewsMatchSelection st →
      reviewsMatchSelection (stepResultsAll entries st) := by
  induction entries with
  | nil => intro st h; exact h
  | cons p rest ih =>
    intro st h
    show reviewsMatchSelection
      (stepResultsAll rest (removeLoading p.1 (processInState p.1 p.2 st)))
    exact ih _ (inv_removeLoading _ _ (inv_processInState _ _ _ h))

theorem stepResultsAll_selected (entries : List (String × ContributorResult)) :
    ∀ st : MainState,
      (stepResultsAll entries st).selectedContributors = st.selectedContributors := by
  induction entries with
  | nil => intro st; rfl
  | cons p rest ih =>
    intro st
    show (stepResultsAll rest
      (removeLoading p.1 (processInState p.1 p.2 st))).selectedContributors = _
    rw [ih]
    rfl

theorem inv_stepSingleResult (ts : TaskStatusResponse) (st : MainState)
    (h : reviewsMatchSelection st) : reviewsMatchSelection (stepSingleResult ts st) := by
  rw [stepSingleResult]
  rcases ts.contributor_login with _ | l
  · exact h
  · rcases ts.result with _ | r
    · exact h
    · show reviewsMatchSelection
        (if (l != "") = true then removeLoading l (processInState l r st) else st)
      by_cases hl : (l != "") = true
      · rw [if_pos hl]
        exact inv_removeLoading _ _ (inv_processInState _ _ _ h)
      · rw [if_neg hl]
        exact h

theorem stepSingleResult_selected (ts : TaskStatusResponse) (st : MainState) :
    (stepSingleResult ts st).selectedContributors = st.selectedContributors := by
  rw [stepSingleResult]
  rcases ts.contributor_login with _ | l
  · rfl
  · rcases ts.result with _ | r
    · rfl
    · show (if (l != "") = true then removeLoading l (processInState l r st)
        else st).selectedContributors = st.selectedContributors
      by_cases hl : (l != "") = true
      · rw [if_pos hl]; rfl
      · rw [if_neg hl]

theorem inv_partialStep (results : Option (List (String × ContributorResult)))
    (st : MainState) (l : String) (h : reviewsMatchSelection st) :
    reviewsMatchSelection (partialStep results st l) := by
  rw [partialStep]
  cases lookupResult results l with
  | none => exact h
  | some r => exact inv_processInState _ _ _ (inv_removeLoading _ _ h)

theorem inv_applyPartialMerge (results : Option (List (String × ContributorResult))) :
    ∀ (cc : List String) (st : MainState), reviewsMatchSelection st →
      reviewsMatchSelection (applyPartialMerge cc results st) := by
  intro cc
  induction cc with
  | nil => intro st h; exact h
  | cons l0 rest ih =>
    intro st h
    show reviewsMatchSelection (applyPartialMerge rest results (partialStep results st l0))
    exact ih _ (inv_partialStep results st l0 h)

theorem applyPartialMerge_selected (results : Option (List (String × ContributorResult))) :
    ∀ (cc : List String) (st : MainState),
      (applyPartialMerge cc results st).selectedContributors = st.selectedContributors := by
  intro cc
  induction cc with
  | nil => intro st; rfl
  | cons l0 rest ih =>
    intro st
    show (applyPartialMerge rest results
      (partialStep results st l0)).selectedContributors = _
    rw [ih, (partialStep_selected results st l0).1]

theorem inv_completedFold (ts : TaskStatusResponse) :
    ∀ (cc : List String) (st : MainState), reviewsMatchSelection st →
      reviewsMatchSelection (cc.foldl (fun s l =>
        match lookupResult ts.results l with
        | some rr => processInState l rr s
        | none => s) st) := by
  intro cc
  induction cc with
  | nil => intro st h; exact h
  | cons l0 rest ih =>
    intro st h
    rw [List.foldl_cons]
    refine ih _ ?_
    cases lookupResult ts.results l0 with
    | none => exact h
    | some rr => exact inv_processInState _ _ _ h

theorem completedFold_selected (ts : TaskStatusResponse) :
    ∀ (cc : List String) (st : MainState),
      (cc.foldl (fun s l =>
        match lookupResult ts.results l with
        | some rr => processInState l rr s
        | none => s) st).selectedContributors = st.selectedContributors := by
  intro cc
  induction cc with
  | nil => intro st; rfl
  | cons l0 rest ih =>
    intro st
    rw [List.foldl_cons, ih]
    cases lookupResult ts.results l0 with
    | none => rfl
    | some rr => rfl

theorem inv_stepCompletedResults (ts : TaskStatusResponse) (st : MainState)
    (h : reviewsMatchSelection st) :
    reviewsMatchSelection (stepCompletedResults ts st) := by
  rw [stepCompletedResults]
  rcases ts.result with _ | r
  · exact h
  · have h1 : reviewsMatchSelection (match r.contributor_login with
        | some l => if l != "" then processInState l r st else st
        | none => st) := by
      rcases r.contributor_login with _ | l
      · exact h
      · show reviewsMatchSelection
          (if (l != "") = true then processInState l r st else st)
        by_cases hl : (l != "") = true
        · rw [if_pos hl]; exact inv_processInState _ _ _ h
        · rw [if_neg hl]; exact h
    rcases ts.completed_contributors with _ | cc
    · exact h1
    · exact inv_completedFold ts cc _ h1

theorem stepCompletedResults_selected (ts : TaskStatusResponse) (st : MainState) :
    (stepCompletedResults ts st).selectedContributors = st.selectedContributors := by
  rw [stepCompletedResults]
  rcases ts.result with _ | r
  · rfl
  · have h1 : (match r.contributor_login with
        | some l => if l != "" then processInState l r st else st
        | none => st).selectedContributors = st.selectedContributors := by
      rcases r.contributor_login with _ | l
      · rfl
      · show (if (l != "") = true then processInState l r st
          else st).selectedContributors = st.selectedContributors
        by_cases hl : (l != "") = true
        · rw [if_pos hl]; rfl
        · rw [if_neg hl]
    rcases ts.completed_contributors with _ | cc
    · exact h1
    · rw [completedFold_selected, h1]

theorem applyTaskStatus_selected (ts : TaskStatusResponse) (st : MainState) :
    (applyTaskStatus ts st).1.selectedContributors = st.selectedContributors := by
  have hst1 : (match ts.results with
      | some entries => stepResultsAll entries st
      | none => st).selectedContributors = st.selectedContributors := by
    cases ts.results with
    | none => rfl
    | some entries => exact stepResultsAll_selected entries st
  have hst2 : (stepSingleResult ts (match ts.results with
      | some entries => stepResultsAll entries st
      | none => st)).selectedContributors = st.selectedContributors := by
    rw [stepSingleResult_selected, hst1]
  simp only [applyTaskStatus]
  by_cases h1 : ts.status = "completed"
  · rw [if_pos h1]
    show (stepCompletedResults ts _).selectedContributors = _
    rw [stepCompletedResults_selected]
    exact hst2
  rw [if_neg h1]
  by_cases h2 : ts.status = "partial"
  · rw [if_pos h2]
    show (match ts.completed_contributors with
      | some cc => applyPartialMerge cc ts.results _
      | none => _).selectedContributors = _
    rcases ts.completed_contributors with _ | cc
    · exact hst2
    · rw [applyPartialMerge_selected]
      exact hst2
  rw [if_neg h2]
  by_cases h3 : ts.status = "failed"
  · rw [if_pos h3]
    exact hst2
  rw [if_neg h3]
  by_cases h4 : ts.status = "completed-email-failed"
  · rw [if_pos h4]
    exact hst2
  rw [if_neg h4]
  by_cases h5 : ts.status = "completed-no-email"
  · rw [if_pos h5]
    exact hst2
  rw [if_neg h5]
  exact hst2

theorem applyTaskStatus_invariant (ts : TaskStatusResponse) (st : MainState)
    (h : reviewsMatchSelection st) : reviewsMatchSelection (applyTaskStatus ts st).1 := by
  have hinv1 : reviewsMatchSelection (match ts.results with
      | some entries => stepResultsAll entries st
      | none => st) := by
    cases ts.results with
    | none => exact h
    | some entries => exact inv_stepResultsAll entries st h
  have hinv2 : reviewsMatchSelection (stepSingleResult ts (match ts.results with
      | some entries => stepResultsAll entries st
      | none => st)) := inv_stepSingleResult ts _ hinv1
  simp only [applyTaskStatus]
  by_cases h1 : ts.status = "completed"
  · rw [if_pos h1]
    show reviewsMatchSelection (stepCompletedResults ts _)
    exact inv_stepCompletedResults ts _ (fun rv hrv => hinv2 rv hrv)
  rw [if_neg h1]
  by_cases h2 : ts.status = "partial"
  · rw [if_pos h2]
    show reviewsMatchSelection (match ts.completed_contributors with
      | some cc => applyPartialMerge cc ts.results _
      | none => _)
    rcases ts.completed_contributors with _ | cc
    · exact hinv2
    · exact inv_applyPartialMerge ts.results cc _ hinv2
  rw [if_neg h2]
  by_cases h3 : ts.status = "failed"
  · rw [if_pos h3]
    exact fun rv hrv => hinv2 rv hrv
  rw [if_neg h3]
  by_cases h4 : ts.status = "completed-email-failed"
  · rw [if_pos h4]
    exact fun rv hrv => hinv2 rv hrv
  rw [if_neg h4]
  by_cases h5 : ts.status = "completed-no-email"
  · rw [if_pos h5]
    exact fun rv hrv => hinv2 rv hrv
  rw [if_neg h5]
  exact hinv2

/-- Claim C9: a payload for a login that is not among the selected contributors
is silently dropped (`processContributorResult` returns the review list
unchanged); the poll effect never changes the selection; and if every displayed
review belongs to a selected contributor, this still holds after any poll step
— both against the new state and against the original selection. -/
theorem poll_merge_selection_invariant (sel : List Contributor) (email login : String)
    (r : ContributorResult) (rvs : List CodeReview) (ts : TaskStatusResponse)
    (st : MainState) :
    ((∀ c ∈ sel, c.login ≠ login) →
      processContributorResult sel email login r rvs = rvs)
    ∧ (applyTaskStatus ts st).1.selectedContributors = st.selectedContributors
    ∧ (reviewsMatchSelection st → reviewsMatchSelection (applyTaskStatus ts st).1)
    ∧ (reviewsMatchSelection st →
        ∀ rv ∈ (applyTaskStatus ts st).1.codeReviews,
          rv.login ∈ st.selectedContributors.map (fun c => c.login)) := by
  refine ⟨?_, applyTaskStatus_selected ts st, applyTaskStatus_invariant ts st, ?_⟩
  · intro h
    rw [processContributorResult]
    have hfind : sel.find? (fun c => c.login == login) = none := by
      rw [List.find?_eq_none]
      intro c hc
      simpa using h c hc
    rw [hfind]
  · intro h rv hrv
    have := applyTaskStatus_invariant ts st h rv hrv
    rwa [applyTaskStatus_selected ts st] at this

/-- Claim C9 witness: a `partial` snapshot carrying a result for the unselected
login `mallory`: `processContributorResult` drops it, and the displayed reviews
keep matching the selection (`alice` only). -/
theorem poll_merge_selection_invariant_witness :
    (let aliceC : Contributor :=
      { id := 1, login := "alice", avatar_url := "", name := "Alice",
        email := "alice@acme.dev", mergeCount := 3 }
     let stW : MainState :=
      { selectedContributors := [aliceC], email := "",
        codeReviews := [placeholderReview [aliceC] "" "alice"],
        loadingContributors := ["alice"], taskId := some "t1",
        isReportGenerating := true, showReportsSection := true,
        processingContributors := [] }
     let tsW : TaskStatusResponse :=
      { status := "partial",
        results := some [("mallory", { total_count := some 7 })],
        completed_contributors := some ["mallory"] }
     processContributorResult [aliceC] "" "mallory" { total_count := some 7 }
         stW.codeReviews = stW.codeReviews
     ∧ (applyTaskStatus tsW stW).1.selectedContributors = stW.selectedContributors
     ∧ (placeholderReview [aliceC] "" "alice").login ∈
         stW.selectedContributors.map (fun c => c.login)) := by
  have base := poll_merge_selection_invariant
    [{ id := 1, login := "alice", avatar_url := "", name := "Alice",
       email := "alice@acme.dev", mergeCount := 3 }] "" "mallory"
    { total_count := some 7 }
    [placeholderReview
      [{ id := 1, login := "alice", avatar_url := "", name := "Alice",
         email := "alice@acme.dev", mergeCount := 3 }] "" "alice"]
    { status := "partial",
      results := some [("mallory", { total_count := some 7 })],
      completed_contributors := some ["mallory"] }
    { selectedContributors :=
        [{ id := 1, login := "alice", avatar_url := "", name := "Alice",
           email := "alice@acme.dev", mergeCount := 3 }],
      email := "",
      codeReviews := [placeholderReview
        [{ id := 1, login := "alice", avatar_url := "", name := "Alice",
           email := "alice@acme.dev", mergeCount := 3 }] "" "alice"],
      loadingContributors := ["alice"], taskId := some "t1",
      isReportGenerating := true, showReportsSection := true,
      processingContributors := [] }
  refine ⟨base.1 (by decide), base.2.1, base.2.2.2 ?_ _ ?_⟩
  · unfold reviewsMatchSelection
    decide
  · decide

end CodeQualityReporter
